import Mathlib

/-!
Verification of the invoket discovery + argument-resolution engine
(`src/cli.ts`) against its natural-language specification.

The TypeScript functions are shallowly embedded as executable Lean
definitions operating on `String` / `List Char`.  JavaScript strings are
modelled as their character sequences; JS `Map` objects are modelled as
association lists with JS `Map.set` semantics (overwrite in place, else
append); thrown exceptions are modelled with `Except` / `Option`.
Number values are modelled as exact rationals (`Rat`) instead of IEEE
doubles; all concrete values appearing in the theorems below are small
integers, where the two semantics agree.

Each embedded definition names the `cli.ts` function it translates.
-/

/-! ## Generic helpers for JS string and Map primitives -/

/-- Build a `String` from an explicit character list. -/
def strFromChars (l : List Char) : String := ⟨l⟩

/-- JS `String.prototype.startsWith`, on character lists.
`startsWithChars s p` is true when `p` is an initial segment of `s`. -/
def startsWithChars : List Char → List Char → Bool
  | _, [] => true
  | [], _ :: _ => false
  | c :: cs, p :: ps => decide (c = p) && startsWithChars cs ps

/-- JS `String.prototype.includes` for a single character. -/
def containsChar (x : Char) (l : List Char) : Bool := l.any (· = x)

/-- JS `String.prototype.indexOf` for a single character: index of the
first occurrence, `none` standing for JS `-1`. -/
def charIndexOf (x : Char) : List Char → Option Nat
  | [] => none
  | c :: cs => if c = x then some 0 else (charIndexOf x cs).map (· + 1)

/-- JS `String.prototype.slice(a, b)` (with `0 ≤ a ≤ b`). -/
def sliceChars (l : List Char) (a b : Nat) : List Char := (l.take b).drop a

/-- Whether `pat` occurs as a contiguous substring of the second list. -/
def hasSubChars (pat : List Char) : List Char → Bool
  | [] => decide (pat = [])
  | c :: t => startsWithChars (c :: t) pat || hasSubChars pat t

/-- JS `Map.prototype.set`: overwrite an existing key in place, else
append at the end (insertion order preserved). -/
def alistSet {β : Type} (m : List (String × β)) (k : String) (v : β) :
    List (String × β) :=
  if m.any (fun p => p.1 = k) then
    m.map (fun p => if p.1 = k then (k, v) else p)
  else m ++ [(k, v)]

/-- JS `Map.prototype.get` (`none` standing for `undefined`). -/
def alistGet {β : Type} (m : List (String × β)) (k : String) : Option β :=
  (m.find? (fun p => p.1 = k)).map (fun p => p.2)

/-- JS `Map.prototype.has`. -/
def alistHas {β : Type} (m : List (String × β)) (k : String) : Bool :=
  m.any (fun p => p.1 = k)

/-! ## Data model (`cli.ts` lines 4-38) -/

/-- `ParamType` (`cli.ts` line 5). -/
inductive ParamType where
  | string
  | number
  | boolean
  | object
  | array
deriving DecidableEq, Repr

/-- `FlagMeta` (`cli.ts` lines 8-12). -/
structure FlagMeta where
  long : String
  short : Option String
  aliases : Option (List String)
deriving DecidableEq, Repr

/-- `ParamMeta` (`cli.ts` lines 15-21). -/
structure ParamMeta where
  name : String
  type : ParamType
  required : Bool
  isRest : Bool
  flag : Option FlagMeta
deriving DecidableEq, Repr

/-- `TaskMeta` (`cli.ts` lines 23-26). -/
structure TaskMeta where
  description : String
  params : List ParamMeta
deriving DecidableEq, Repr

/-- A flag value in the parsed-args map: JS `string | boolean`. -/
inductive RawVal where
  | str (s : String)
  | bool (b : Bool)
deriving DecidableEq, Repr

/-- `ParsedArgs` (`cli.ts` lines 29-32): positional tokens plus the flag
map. -/
structure ParsedArgs where
  positional : List String
  flags : List (String × RawVal)
deriving DecidableEq, Repr

/-! ## CLI tokenizer: `parseCliArgs` (`cli.ts` lines 348-425)

The source iterates over `args` with an index `i`, occasionally
consuming the following token (`i++`).  The embedding recurses over the
token list, pattern-matching one token ahead where the source peeks at
`args[i + 1]`; the `fuel` argument only bounds the recursion depth and
is always larger than the number of steps actually taken. -/

def parseCliArgsAux : Nat → List String → Bool → List String →
    List (String × RawVal) → ParsedArgs
  | 0, _, _, pos, flags => ⟨pos, flags⟩
  | _ + 1, [], _, pos, flags => ⟨pos, flags⟩
  | fuel + 1, arg :: rest, stopFlagParsing, pos, flags =>
    let a := arg.data
    if stopFlagParsing then
      parseCliArgsAux fuel rest true (pos ++ [arg]) flags
    else if arg = "--" then
      parseCliArgsAux fuel rest true pos flags
    else if startsWithChars a ['-', '-'] && containsChar '=' a then
      -- --flag=value
      let eqIdx := (charIndexOf '=' a).getD a.length
      let name := strFromChars (sliceChars a 2 eqIdx)
      let value := strFromChars (a.drop (eqIdx + 1))
      parseCliArgsAux fuel rest false pos (alistSet flags name (.str value))
    else if startsWithChars a ['-', '-', 'n', 'o', '-'] then
      -- --no-flag (boolean negation)
      let name := strFromChars (a.drop 5)
      parseCliArgsAux fuel rest false pos (alistSet flags name (.bool false))
    else if startsWithChars a ['-', '-'] then
      -- --flag (may be boolean or need next arg)
      let name := strFromChars (a.drop 2)
      match rest with
      | nextArg :: rest2 =>
        if !startsWithChars nextArg.data ['-'] then
          parseCliArgsAux fuel rest2 false pos (alistSet flags name (.str nextArg))
        else
          parseCliArgsAux fuel rest false pos (alistSet flags name (.bool true))
      | [] =>
        parseCliArgsAux fuel [] false pos (alistSet flags name (.bool true))
    else if startsWithChars a ['-'] && decide (a.length > 2) && containsChar '=' a then
      -- -f=value (short with equals)
      let eqIdx := (charIndexOf '=' a).getD a.length
      let name := strFromChars (sliceChars a 1 eqIdx)
      let value := strFromChars (a.drop (eqIdx + 1))
      parseCliArgsAux fuel rest false pos (alistSet flags name (.str value))
    else if startsWithChars a ['-'] && decide (a.length = 2) then
      -- -f value or -f (boolean)
      let name := strFromChars (a.drop 1)
      match rest with
      | nextArg :: rest2 =>
        if !startsWithChars nextArg.data ['-'] then
          parseCliArgsAux fuel rest2 false pos (alistSet flags name (.str nextArg))
        else
          parseCliArgsAux fuel rest false pos (alistSet flags name (.bool true))
      | [] =>
        parseCliArgsAux fuel [] false pos (alistSet flags name (.bool true))
    else
      -- Positional argument
      parseCliArgsAux fuel rest stopFlagParsing (pos ++ [arg]) flags

/-- `parseCliArgs` (`cli.ts` lines 348-425). -/
def parseCliArgs (args : List String) : ParsedArgs :=
  parseCliArgsAux (args.length + 1) args false [] []

/-! ## Command splitting: `parseCommand` (`cli.ts` lines 56-80) -/

/-- Result of `parseCommand`; `ns` is the TS field `namespace`. -/
structure ParsedCommand where
  ns : Option String
  method : String
deriving DecidableEq, Repr

/-- `parseCommand` (`cli.ts` lines 56-80): split at the smaller of
`indexOf(":")` and `indexOf(".")`, mirroring the source's `-1`
case analysis with `Option`. -/
def parseCommand (command : String) : ParsedCommand :=
  let colonIdx := charIndexOf ':' command.data
  let dotIdx := charIndexOf '.' command.data
  let sepIdx : Option Nat :=
    match colonIdx, dotIdx with
    | some ci, some di => some (min ci di)
    | some ci, none => some ci
    | none, some di => some di
    | none, none => none
  match sepIdx with
  | some i =>
      ⟨some (strFromChars (command.data.take i)),
        strFromChars (command.data.drop (i + 1))⟩
  | none => ⟨none, command⟩

/-- Spec-side reading of command splitting (spec section "implicit
behaviour of parseCommand"): scan left to right and split at the first
character that is `:` or `.`; a command containing neither is a root
task name. -/
def firstSepSplit : List Char → Option (List Char × List Char)
  | [] => none
  | c :: cs =>
    if c = ':' ∨ c = '.' then some ([], cs)
    else (firstSepSplit cs).map (fun p => (c :: p.1, p.2))

/-- Spec-side command splitter built on `firstSepSplit`. -/
def specSplitCommand (command : String) : ParsedCommand :=
  match firstSepSplit command.data with
  | none => ⟨none, command⟩
  | some (nsChars, methodChars) =>
      ⟨some (strFromChars nsChars), strFromChars methodChars⟩

/-! ## JS values

`coerceArg` returns a JS value (`unknown` in the source): a string, a
number, a boolean, or a JSON-parsed structure.  Numbers are modelled as
exact rationals plus the two infinities; `NaN` never appears as a value
because every `NaN` result makes the source throw. -/

/-- A non-`NaN` JS number. -/
inductive JSNum where
  | fin (q : Rat)
  | inf
  | negInf
deriving DecidableEq, Repr

/-- A JS runtime value as produced by argument coercion. -/
inductive JSValue where
  | str (s : String)
  | num (n : JSNum)
  | bool (b : Bool)
  | null
  | arr (elems : List JSValue)
  | obj (fields : List (String × JSValue))
deriving Repr

/-! ## The JS `Number(string)` conversion

Modelled from ECMA-262 `StringToNumber`: trim JS whitespace; the empty
remainder is `0`; otherwise the remainder must be a `StrNumericLiteral`
(optionally signed decimal literal or `Infinity`, or an unsigned
`0x`/`0o`/`0b` radix literal); anything else is `NaN`, encoded `none`.
Values are exact rationals rather than IEEE doubles. -/

/-- JS whitespace as used by string trimming and `Number`. -/
def isJsWs (c : Char) : Bool :=
  c = ' ' || c = '\t' || c = '\n' || c = '\r' || c = '\x0b' || c = '\x0c' ||
  c = '\u00A0' || c = '\u1680' ||
  (decide ('\u2000' ≤ c) && decide (c ≤ '\u200A')) ||
  c = '\u2028' || c = '\u2029' || c = '\u202F' || c = '\u205F' ||
  c = '\u3000' || c = '\uFEFF'

/-- Trim JS whitespace from both ends. -/
def trimJsWs (l : List Char) : List Char :=
  ((l.dropWhile isJsWs).reverse.dropWhile isJsWs).reverse

/-- Decimal digit string to `Nat` (most significant first). -/
def digitsToNat (l : List Char) : Nat :=
  l.foldl (fun acc c => acc * 10 + (c.toNat - 48)) 0

/-- Hexadecimal digit value. -/
def hexVal (c : Char) : Option Nat :=
  if '0' ≤ c ∧ c ≤ '9' then some (c.toNat - 48)
  else if 'a' ≤ c ∧ c ≤ 'f' then some (c.toNat - 87)
  else if 'A' ≤ c ∧ c ≤ 'F' then some (c.toNat - 55)
  else none

/-- Octal digit value. -/
def octVal (c : Char) : Option Nat :=
  if '0' ≤ c ∧ c ≤ '7' then some (c.toNat - 48) else none

/-- Binary digit value. -/
def binVal (c : Char) : Option Nat :=
  if c = '0' then some 0 else if c = '1' then some 1 else none

/-- Parse an entire digit string in the given radix (at least one
digit, all digits valid). -/
def radixNatAux (base : Nat) (digitVal : Char → Option Nat) :
    List Char → Nat → Option Nat
  | [], acc => some acc
  | c :: cs, acc =>
    match digitVal c with
    | some v => radixNatAux base digitVal cs (acc * base + v)
    | none => none

/-- Whole-string radix literal (nonempty). -/
def radixNat (base : Nat) (digitVal : Char → Option Nat) :
    List Char → Option Nat
  | [] => none
  | c :: cs => radixNatAux base digitVal (c :: cs) 0

/-- Whole-string decimal digit run (nonempty). -/
def allDecDigits (l : List Char) : Option Nat :=
  match l with
  | [] => none
  | _ :: _ => if l.all Char.isDigit then some (digitsToNat l) else none

/-- Scale a rational by a (possibly negative) power of ten; the zero
exponent leaves the value untouched without performing arithmetic. -/
def mulPow10 (q : Rat) (e : Int) : Rat :=
  match e with
  | .ofNat 0 => q
  | .ofNat n => q * (10 : Rat) ^ n
  | .negSucc n => q / (10 : Rat) ^ (n + 1)

/-- The fractional-digits contribution `digits / 10 ^ len`. -/
def fracRat (l : List Char) : Rat :=
  Rat.ofInt (digitsToNat l : Int) / (10 : Rat) ^ l.length

/-- An exponent part covering the whole remaining string: empty, or
`e`/`E`, an optional sign, and at least one digit. -/
def parseExpPart : List Char → Option Int
  | [] => some 0
  | c :: cs =>
    if c = 'e' ∨ c = 'E' then
      match cs with
      | '+' :: ds => (allDecDigits ds).map (fun n => (n : Int))
      | '-' :: ds => (allDecDigits ds).map (fun n => -(n : Int))
      | ds => (allDecDigits ds).map (fun n => (n : Int))
    else none

/-- An unsigned decimal literal covering the whole string:
`digits [. digits] [exp]` or `. digits [exp]`. -/
def parseUnsignedDec (l : List Char) : Option Rat :=
  let intDigits := l.takeWhile Char.isDigit
  let rest1 := l.drop intDigits.length
  match intDigits with
  | [] =>
    match rest1 with
    | '.' :: r =>
      let fracDigits := r.takeWhile Char.isDigit
      match fracDigits with
      | [] => none
      | _ :: _ =>
        (parseExpPart (r.drop fracDigits.length)).map
          (fun e => mulPow10 (fracRat fracDigits) e)
    | _ => none
  | _ :: _ =>
    match rest1 with
    | '.' :: r =>
      let fracDigits := r.takeWhile Char.isDigit
      let base :=
        match fracDigits with
        | [] => Rat.ofInt (digitsToNat intDigits : Int)
        | _ :: _ => Rat.ofInt (digitsToNat intDigits : Int) + fracRat fracDigits
      (parseExpPart (r.drop fracDigits.length)).map (fun e => mulPow10 base e)
    | _ =>
      (parseExpPart rest1).map
        (fun e => mulPow10 (Rat.ofInt (digitsToNat intDigits : Int)) e)

/-- Negate a JS number. -/
def jsNumNeg : JSNum → JSNum
  | .fin q => .fin (-q)
  | .inf => .negInf
  | .negInf => .inf

/-- Unsigned decimal literal or `Infinity`, covering the whole string. -/
def parseUnsignedDecOrInf (l : List Char) : Option JSNum :=
  if l = "Infinity".data then some .inf
  else (parseUnsignedDec l).map .fin

/-- A whole-string `StrNumericLiteral` (the input is already trimmed
and nonempty).  A sign is only legal on decimal literals; radix
literals are unsigned. -/
def parseNumericLit (t : List Char) : Option JSNum :=
  match t with
  | '+' :: r => parseUnsignedDecOrInf r
  | '-' :: r => (parseUnsignedDecOrInf r).map jsNumNeg
  | '0' :: c :: r =>
    if c = 'x' ∨ c = 'X' then
      (radixNat 16 hexVal r).map (fun n => .fin (Rat.ofInt (n : Int)))
    else if c = 'o' ∨ c = 'O' then
      (radixNat 8 octVal r).map (fun n => .fin (Rat.ofInt (n : Int)))
    else if c = 'b' ∨ c = 'B' then
      (radixNat 2 binVal r).map (fun n => .fin (Rat.ofInt (n : Int)))
    else parseUnsignedDecOrInf ('0' :: c :: r)
  | _ => parseUnsignedDecOrInf t

/-- JS `Number(string)`: `none` encodes `NaN`. -/
def jsNumber (s : String) : Option JSNum :=
  match trimJsWs s.data with
  | [] => some (.fin 0)
  | c :: cs => parseNumericLit (c :: cs)

/-! ## `JSON.parse`

Modelled from the ECMA-404 / ECMA-262 `JSON.parse` grammar, which the
source invokes in `coerceArg`.  `none` encodes a thrown `SyntaxError`.
Numbers become exact rationals; a duplicated object key keeps its first
position and its last value, as JS property assignment does.  The `fuel`
argument only bounds recursion depth and exceeds any possible depth at
the chosen initial value. -/

/-- JSON insignificant whitespace. -/
def jsonWsChar (c : Char) : Bool :=
  c = ' ' || c = '\t' || c = '\n' || c = '\r'

/-- Skip JSON whitespace. -/
def jsonSkipWs (l : List Char) : List Char := l.dropWhile jsonWsChar

/-- Consume an exact literal from the front of the input. -/
def dropLit : List Char → List Char → Option (List Char)
  | [], l => some l
  | _ :: _, [] => none
  | p :: ps, c :: cs => if c = p then dropLit ps cs else none

/-- Single-character JSON string escapes. -/
def jsonEscChar (c : Char) : Option Char :=
  if c = '"' then some '"'
  else if c = '\\' then some '\\'
  else if c = '/' then some '/'
  else if c = 'b' then some '\x08'
  else if c = 'f' then some '\x0c'
  else if c = 'n' then some '\n'
  else if c = 'r' then some '\r'
  else if c = 't' then some '\t'
  else none

/-- The body of a JSON string after the opening quote, up to and
including the closing quote; raw control characters are rejected.
A `\u` escape whose code point is not a valid `Char` (a lone
surrogate) is replaced by the null character — a deviation from JS
strings, which no theorem below depends on. -/
def jsonStringBody : Nat → List Char → Option (List Char × List Char)
  | 0, _ => none
  | fuel + 1, l =>
    match l with
    | [] => none
    | '"' :: rest => some ([], rest)
    | '\\' :: 'u' :: a :: b :: c :: d :: rest =>
      (match hexVal a, hexVal b, hexVal c, hexVal d with
       | some va, some vb, some vc, some vd =>
         (jsonStringBody fuel rest).map (fun p =>
           (Char.ofNat (((va * 16 + vb) * 16 + vc) * 16 + vd) :: p.1, p.2))
       | _, _, _, _ => none)
    | '\\' :: e :: rest =>
      (match jsonEscChar e with
       | some c => (jsonStringBody fuel rest).map (fun p => (c :: p.1, p.2))
       | none => none)
    | c :: rest =>
      if c.toNat < 32 then none
      else (jsonStringBody fuel rest).map (fun p => (c :: p.1, p.2))

/-- A JSON number token at the front of the input: `-? int frac? exp?`
with `int = 0 | [1-9][0-9]*`.  Returns the value and the remainder. -/
def jsonNumberTok (l : List Char) : Option (Rat × List Char) :=
  let signed : Bool × List Char :=
    match l with
    | '-' :: r => (true, r)
    | _ => (false, l)
  let neg := signed.1
  let intRes : Option (Nat × List Char) :=
    match signed.2 with
    | '0' :: r => some (0, r)
    | c :: r =>
      if '1' ≤ c ∧ c ≤ '9' then
        let ds := r.takeWhile Char.isDigit
        some (digitsToNat (c :: ds), r.drop ds.length)
      else none
    | [] => none
  match intRes with
  | none => none
  | some (intVal, rest1) =>
    let fracRes : Option (List Char × List Char) :=
      match rest1 with
      | '.' :: r =>
        let ds := r.takeWhile Char.isDigit
        (match ds with
         | [] => none
         | _ :: _ => some (ds, r.drop ds.length))
      | _ => some ([], rest1)
    match fracRes with
    | none => none
    | some (fracDigits, rest2) =>
      let expRes : Option (Int × List Char) :=
        match rest2 with
        | c :: r =>
          if c = 'e' ∨ c = 'E' then
            (match r with
             | '+' :: r2 =>
               let ds := r2.takeWhile Char.isDigit
               (match ds with
                | [] => none
                | _ :: _ => some ((digitsToNat ds : Int), r2.drop ds.length))
             | '-' :: r2 =>
               let ds := r2.takeWhile Char.isDigit
               (match ds with
                | [] => none
                | _ :: _ => some (-(digitsToNat ds : Int), r2.drop ds.length))
             | _ =>
               let ds := r.takeWhile Char.isDigit
               (match ds with
                | [] => none
                | _ :: _ => some ((digitsToNat ds : Int), r.drop ds.length)))
          else some (0, rest2)
        | [] => some (0, [])
      match expRes with
      | none => none
      | some (e, rest3) =>
        let base : Rat :=
          match fracDigits with
          | [] => Rat.ofInt (intVal : Int)
          | _ :: _ => Rat.ofInt (intVal : Int) + fracRat fracDigits
        let q := mulPow10 base e
        some (if neg then -q else q, rest3)

mutual

/-- A JSON value at the front of the input (leading whitespace
allowed), returning the value and the remainder. -/
def jsonVal : Nat → List Char → Option (JSValue × List Char)
  | 0, _ => none
  | fuel + 1, l =>
    match jsonSkipWs l with
    | [] => none
    | c :: rest =>
      if c = '"' then
        (jsonStringBody fuel rest).map (fun p => (.str (strFromChars p.1), p.2))
      else if c = '[' then
        (match jsonSkipWs rest with
         | ']' :: r2 => some (.arr [], r2)
         | r2 => (jsonItems fuel r2).map (fun p => (.arr p.1, p.2)))
      else if c = '{' then
        (match jsonSkipWs rest with
         | '}' :: r2 => some (.obj [], r2)
         | r2 =>
           (jsonMembers fuel r2).map (fun p =>
             (.obj (p.1.foldl (fun m kv => alistSet m kv.1 kv.2) []), p.2)))
      else if c = 't' then
        (dropLit "rue".data rest).map (fun r => (.bool true, r))
      else if c = 'f' then
        (dropLit "alse".data rest).map (fun r => (.bool false, r))
      else if c = 'n' then
        (dropLit "ull".data rest).map (fun r => (.null, r))
      else
        (jsonNumberTok (c :: rest)).map (fun p => (.num (.fin p.1), p.2))

/-- Nonempty bracket-terminated item list of a JSON array. -/
def jsonItems : Nat → List Char → Option (List JSValue × List Char)
  | 0, _ => none
  | fuel + 1, l =>
    match jsonVal fuel l with
    | none => none
    | some (v, r1) =>
      match jsonSkipWs r1 with
      | ',' :: r2 =>
        (match jsonItems fuel r2 with
         | none => none
         | some (vs, r3) => some (v :: vs, r3))
      | ']' :: r2 => some ([v], r2)
      | _ => none

/-- Nonempty brace-terminated member list of a JSON object, in parse
order. -/
def jsonMembers : Nat → List Char →
    Option (List (String × JSValue) × List Char)
  | 0, _ => none
  | fuel + 1, l =>
    match jsonSkipWs l with
    | '"' :: r1 =>
      (match jsonStringBody fuel r1 with
       | none => none
       | some (keyChars, r2) =>
         match jsonSkipWs r2 with
         | ':' :: r3 =>
           (match jsonVal fuel r3 with
            | none => none
            | some (v, r4) =>
              match jsonSkipWs r4 with
              | ',' :: r5 =>
                (match jsonMembers fuel r5 with
                 | none => none
                 | some (fs, r6) => some ((strFromChars keyChars, v) :: fs, r6))
              | '}' :: r5 => some ([(strFromChars keyChars, v)], r5)
              | _ => none)
         | _ => none)
    | _ => none

end

/-- JS `JSON.parse`: parse one value and require only whitespace after
it; `none` encodes a thrown `SyntaxError`. -/
def jsonParse (s : String) : Option JSValue :=
  match jsonVal (3 * s.data.length + 8) s.data with
  | some (v, rest) => if jsonSkipWs rest = [] then some v else none
  | none => none

/-! ## Type coercion: `coerceArg` (`cli.ts` lines 300-345) -/

/-- The error taxonomy of the resolution pipeline.  `coerceArg` throws
`Error` objects whose messages distinguish a type mismatch
(`Expected ..., got ...`) from malformed JSON (`Invalid JSON: ...`,
produced exactly when `JSON.parse` threw a `SyntaxError`); `resolveArgs`
adds the missing-required-argument failure. -/
inductive CliError where
  | missingArgument (name : String) (ty : ParamType)
  | typeMismatch
  | invalidPayload
deriving DecidableEq, Repr

/-- `coerceArg` (`cli.ts` lines 300-345).  The source's `try`/`catch`
around `JSON.parse` is linearized: a parse failure (`SyntaxError`)
becomes `invalidPayload`; a successful parse of the wrong shape throws
a plain `Error`, which the `catch` re-throws unchanged, becoming
`typeMismatch`. -/
def coerceArg (value : String) (ty : ParamType) : Except CliError JSValue :=
  match ty with
  | .number =>
    if value = "" then .error .typeMismatch
    else
      match jsNumber value with
      | none => .error .typeMismatch
      | some n => .ok (.num n)
  | .boolean =>
    if value = "true" || value = "1" then .ok (.bool true)
    else if value = "false" || value = "0" then .ok (.bool false)
    else .error .typeMismatch
  | .object =>
    match jsonParse value with
    | none => .error .invalidPayload
    | some parsed =>
      match parsed with
      | .obj fields => .ok (.obj fields)
      | _ => .error .typeMismatch
  | .array =>
    match jsonParse value with
    | none => .error .invalidPayload
    | some parsed =>
      match parsed with
      | .arr elems => .ok (.arr elems)
      | _ => .error .typeMismatch
  | .string => .ok (.str value)

/-! ## Argument resolver: `resolveArgs` (`cli.ts` lines 428-501) -/

/-- JS `String(value)` on a `string | boolean` value. -/
def rawToString : RawVal → String
  | .str s => s
  | .bool true => "true"
  | .bool false => "false"

/-- The alias scan of `resolveArgs` (`cli.ts` lines 459-467): first
alias whose key (alias text minus the leading dashes) is present. -/
def aliasLookup : List String → List (String × RawVal) → Option RawVal
  | [], _ => none
  | alias1 :: rest, flags =>
    let aliasName := strFromChars (alias1.data.drop 2)
    if alistHas flags aliasName then alistGet flags aliasName
    else aliasLookup rest flags

/-- The flag lookup of `resolveArgs` (`cli.ts` lines 445-468): the long
flag key, else the short flag key, else the aliases in listed order. -/
def flagLookup (param : ParamMeta) (flags : List (String × RawVal)) :
    Option RawVal :=
  match param.flag with
  | none => none
  | some f =>
    let longName := strFromChars (f.long.data.drop 2)
    let v1 : Option RawVal :=
      if alistHas flags longName then alistGet flags longName
      else
        match f.short with
        | some s =>
          let shortName := strFromChars (s.data.drop 1)
          if alistHas flags shortName then alistGet flags shortName else none
        | none => none
    match v1 with
    | some v => some v
    | none =>
      match f.aliases with
      | some als => aliasLookup als flags
      | none => none

/-- The positional fallback of `resolveArgs` (`cli.ts` lines 471-479):
the first index not yet consumed, scanning from `i`. -/
def firstUnused : List String → List Nat → Nat → Option (Nat × String)
  | [], _, _ => none
  | p :: ps, used, i =>
    if used.contains i then firstUnused ps used (i + 1) else some (i, p)

/-- The rest-parameter collection of `resolveArgs` (`cli.ts` lines
434-440): all positional tokens at indices not yet consumed, in order. -/
def remainingPositional (pos : List String) (used : List Nat) : List String :=
  (pos.enum.filter (fun p => !used.contains p.1)).map (fun p => p.2)

/-- The descriptor loop of `resolveArgs` (`cli.ts` lines 432-498),
threading the used-positional set and the result accumulator. -/
def resolveAux : List ParamMeta → ParsedArgs → List Nat → List JSValue →
    Except CliError (List JSValue)
  | [], _, _, result => .ok result
  | param :: rest, parsed, usedPositional, result =>
    if param.isRest then
      .ok (result ++ (remainingPositional parsed.positional usedPositional).map .str)
    else
      let found : Option (RawVal × List Nat) :=
        match flagLookup param parsed.flags with
        | some v => some (v, usedPositional)
        | none =>
          match firstUnused parsed.positional usedPositional 0 with
          | some (i, p) => some (.str p, usedPositional ++ [i])
          | none => none
      match found with
      | none =>
        if param.required then .error (.missingArgument param.name param.type)
        else .ok result
      | some (value, used2) =>
        match value, param.type with
        | .bool b, .boolean => resolveAux rest parsed used2 (result ++ [.bool b])
        | _, _ =>
          match coerceArg (rawToString value) param.type with
          | .ok coerced => resolveAux rest parsed used2 (result ++ [coerced])
          | .error e => .error e

/-- `resolveArgs` (`cli.ts` lines 428-501). -/
def resolveArgs (params : List ParamMeta) (parsed : ParsedArgs) :
    Except CliError (List JSValue) :=
  resolveAux params parsed [] []

/-! ## Argument dispatch in `main` (`cli.ts` lines 736-756) -/

/-- The argument-processing fragment of `main` (`cli.ts` lines
736-756): filter out help tokens, tokenize, and either pass the
positional tokens through untyped (a task registered with no parameter
metadata, invoked with at least one token) or resolve against the
descriptors. -/
def computeTaskArgs (params : List ParamMeta) (taskArgs : List String) :
    Except CliError (List JSValue) :=
  let argsWithoutHelp :=
    taskArgs.filter (fun a => decide (a ≠ "-h") && decide (a ≠ "--help"))
  let parsed := parseCliArgs argsWithoutHelp
  if params.length = 0 && decide (argsWithoutHelp.length > 0) then
    .ok (parsed.positional.map .str)
  else
    resolveArgs params parsed

/-! ## Signature scanner: `extractMethodsFromClass` (`cli.ts` lines 83-122)

The source matches the global regex

  `\/\*\*\s*([^*]*(?:\*(?!\/)[^*]*)*)\*\/\s*async\s+(\w+)\s*\(\s*c\s*:\s*Context\s*(?:,\s*([^)]+))?\s*\)`

repeatedly against a class body.  Each quantified subpattern of the
regex is followed by a character it cannot itself consume, so matching
at a fixed start position is deterministic, and the translation below
is a direct matcher: the doc-comment capture is everything between
`/**` and the first `*/` minus leading whitespace, and the engine's
leftmost-match rule becomes trying each start position in turn and
resuming after the end of every match. -/

/-- JS regex `\w`: ASCII letters, digits, and underscore. -/
def isJsWordChar (c : Char) : Bool := c.isAlpha || c.isDigit || c = '_'

/-- The regex `\s+`: at least one JS whitespace character, then the
whole run. -/
def wsPlus : List Char → Option (List Char)
  | [] => none
  | c :: cs => if isJsWs c then some (cs.dropWhile isJsWs) else none

/-- Split at the first `*/`, returning the text before it and the
remainder after it. -/
def splitAtCloseComment : List Char → Option (List Char × List Char)
  | [] => none
  | c :: rest =>
    if c = '*' && startsWithChars rest ['/'] then some ([], rest.drop 1)
    else (splitAtCloseComment rest).map (fun p => (c :: p.1, p.2))

/-- One attempt of the method pattern anchored at the current position:
returns the doc-comment capture, the method name, the optional
parameter-list capture, and the remainder after the match. -/
def tryMatchMethod (l : List Char) :
    Option (String × String × Option String × List Char) := do
  let l1 ← dropLit "/**".data l
  let (raw, l2) ← splitAtCloseComment l1
  let jsdoc := raw.dropWhile isJsWs
  let l3 := l2.dropWhile isJsWs
  let l4 ← dropLit "async".data l3
  let l5 ← wsPlus l4
  let name := l5.takeWhile isJsWordChar
  match name with
  | [] => none
  | _ :: _ =>
    let l6 := (l5.drop name.length).dropWhile isJsWs
    let l7 ← dropLit ['('] l6
    let l8 := l7.dropWhile isJsWs
    let l9 ← dropLit ['c'] l8
    let l10 := l9.dropWhile isJsWs
    let l11 ← dropLit [':'] l10
    let l12 := l11.dropWhile isJsWs
    let l13 ← dropLit "Context".data l12
    let l14 := l13.dropWhile isJsWs
    match l14 with
    | ',' :: l15 =>
      let l16 := l15.dropWhile isJsWs
      let ps := l16.takeWhile (fun c => decide (c ≠ ')'))
      (match ps with
       | [] => none
       | _ :: _ =>
         match l16.drop ps.length with
         | ')' :: rest =>
           some (strFromChars jsdoc, strFromChars name,
             some (strFromChars ps), rest)
         | _ => none)
    | ')' :: rest => some (strFromChars jsdoc, strFromChars name, none, rest)
    | _ => none

/-- All successive matches of the method pattern: try the pattern at
each position, resuming after the end of each match (`exec` with the
`g` flag).  `fuel` exceeds the input length, and every step consumes at
least one character. -/
def scanMatches : Nat → List Char → List (String × String × Option String)
  | 0, _ => []
  | _ + 1, [] => []
  | fuel + 1, c :: t =>
    match tryMatchMethod (c :: t) with
    | some (jsdoc, nm, ps, rest) => (jsdoc, nm, ps) :: scanMatches fuel rest
    | none => scanMatches fuel t

/-! ## Flag directive parsing (`extractFlagAnnotations`, `cli.ts`
lines 125-156) -/

/-- The per-parameter hint from a doc-comment flag directive. -/
structure FlagHint where
  short : Option String
  aliases : Option (List String)
deriving DecidableEq, Repr

/-- Split on runs of JS whitespace (JS `split(/\s+/)` on trimmed
nonempty input). -/
def splitWsTokens : Nat → List Char → List String
  | 0, _ => []
  | fuel + 1, l =>
    match l.dropWhile isJsWs with
    | [] => []
    | c :: t =>
      let tok := (c :: t).takeWhile (fun d => !isJsWs d)
      strFromChars tok :: splitWsTokens fuel ((c :: t).drop tok.length)

/-- One attempt of the directive pattern `@flag\s+(\w+)\s+([^\n@]*)`
anchored at the current position. -/
def tryFlagDirAt (l : List Char) : Option (String × String × List Char) := do
  let l1 ← dropLit "@flag".data l
  let l2 ← wsPlus l1
  let nm := l2.takeWhile isJsWordChar
  match nm with
  | [] => none
  | _ :: _ => do
    let l3 ← wsPlus (l2.drop nm.length)
    let fs := l3.takeWhile (fun c => decide (c ≠ '\n') && decide (c ≠ '@'))
    some (strFromChars nm, strFromChars fs, l3.drop fs.length)

/-- All successive matches of the directive pattern. -/
def scanFlagDirs : Nat → List Char → List (String × String)
  | 0, _ => []
  | _ + 1, [] => []
  | fuel + 1, c :: t =>
    match tryFlagDirAt (c :: t) with
    | some (nm, fs, rest) => (nm, fs) :: scanFlagDirs fuel rest
    | none => scanFlagDirs fuel t

/-- The token loop of the directive parser (`cli.ts` lines 141-147):
double-dash tokens are aliases in order, a dash plus exactly one more
character is the short flag (the last such token wins), and empty
alias lists are recorded as `undefined`. -/
def flagTokensFold (parts : List String) : FlagHint :=
  let step := parts.foldl
    (fun acc part =>
      if startsWithChars part.data ['-', '-'] then (acc.1, acc.2 ++ [part])
      else if startsWithChars part.data ['-'] && decide (part.data.length = 2) then
        (some part, acc.2)
      else acc)
    ((none : Option String), ([] : List String))
  ⟨step.1, if step.2.length > 0 then some step.2 else none⟩

/-- The TS `extractFlagAnnotations` (`cli.ts` lines 125-156), renamed:
doc-comment text to a map of parameter name to flag hint, a later
directive for the same name overwriting an earlier one. -/
def extractFlagHints (jsdoc : String) : List (String × FlagHint) :=
  (scanFlagDirs (jsdoc.data.length + 1) jsdoc.data).foldl
    (fun m p =>
      alistSet m p.1
        (flagTokensFold (splitWsTokens (p.2.data.length + 1) (trimJsWs p.2.data))))
    []

/-! ## Parameter classifier: `parseParams` (`cli.ts` lines 159-215) -/

/-- Whether the character list ends with the given pattern
(JS `String.prototype.endsWith`). -/
def endsWithChars (l pat : List Char) : Bool :=
  startsWithChars l.reverse pat.reverse

/-- One attempt of the rest-parameter pattern
`\.\.\.(\w+)\s*:\s*(\w+\[\]|\w+)` anchored at the current position,
returning the captured name and raw type. -/
def tryRestAt (l : List Char) : Option (String × String) := do
  let l1 ← dropLit "...".data l
  let nm := l1.takeWhile isJsWordChar
  match nm with
  | [] => none
  | _ :: _ =>
    let l2 := (l1.drop nm.length).dropWhile isJsWs
    let l3 ← dropLit [':'] l2
    let l4 := l3.dropWhile isJsWs
    let w := l4.takeWhile isJsWordChar
    match w with
    | [] => none
    | _ :: _ =>
      match l4.drop w.length with
      | '[' :: ']' :: _ => some (strFromChars nm, strFromChars (w ++ ['[', ']']))
      | _ => some (strFromChars nm, strFromChars w)

/-- First match of the rest-parameter pattern anywhere in the input
(JS `String.prototype.match` without the `g` flag). -/
def findRest : Nat → List Char → Option (String × String)
  | 0, _ => none
  | _ + 1, [] => none
  | fuel + 1, c :: t =>
    match tryRestAt (c :: t) with
    | some r => some r
    | none => findRest fuel t

/-- The ordered type alternatives of the parameter pattern
`(\w+\[\]|Record<[^>]+>|\{[^}]*\}|string|number|boolean|\w+)`, tried
first-match-wins, returning the matched text and the remainder. -/
def typeAlternative (l : List Char) : Option (List Char × List Char) :=
  let w := l.takeWhile isJsWordChar
  let alt1 : Option (List Char × List Char) :=
    match w with
    | [] => none
    | _ :: _ =>
      match l.drop w.length with
      | '[' :: ']' :: r => some (w ++ ['[', ']'], r)
      | _ => none
  match alt1 with
  | some r => some r
  | none =>
    let alt2 : Option (List Char × List Char) :=
      match dropLit "Record<".data l with
      | some r1 =>
        let inner := r1.takeWhile (fun c => decide (c ≠ '>'))
        (match inner with
         | [] => none
         | _ :: _ =>
           match r1.drop inner.length with
           | '>' :: r2 => some ("Record<".data ++ inner ++ ['>'], r2)
           | _ => none)
      | none => none
    match alt2 with
    | some r => some r
    | none =>
      let alt3 : Option (List Char × List Char) :=
        match l with
        | '{' :: r1 =>
          let inner := r1.takeWhile (fun c => decide (c ≠ '}'))
          (match r1.drop inner.length with
           | '}' :: r2 => some ('{' :: (inner ++ ['}']), r2)
           | _ => none)
        | _ => none
      match alt3 with
      | some r => some r
      | none =>
        match dropLit "string".data l with
        | some r => some ("string".data, r)
        | none =>
          match dropLit "number".data l with
          | some r => some ("number".data, r)
          | none =>
            match dropLit "boolean".data l with
            | some r => some ("boolean".data, r)
            | none =>
              match w with
              | [] => none
              | _ :: _ => some (w, l.drop w.length)

/-- The optional default-value group `(?:\s*=\s*[^,)]+)?`: consume it
when it matches in full, else consume nothing. -/
def defaultGroup (l : List Char) : List Char :=
  let t1 := l.dropWhile isJsWs
  match t1 with
  | '=' :: r1 =>
    let r2 := r1.dropWhile isJsWs
    let v := r2.takeWhile (fun c => decide (c ≠ ',') && decide (c ≠ ')'))
    (match v with
     | [] => l
     | _ :: _ => r2.drop v.length)
  | _ => l

/-- One attempt of the parameter pattern anchored at the current
position: captured name, captured raw type, whether the whole matched
text contains `=` (the source's `hasDefault` test), and the remainder. -/
def tryParamAt (l : List Char) : Option (String × String × Bool × List Char) := do
  let nm := l.takeWhile isJsWordChar
  match nm with
  | [] => none
  | _ :: _ => do
    let l2 := (l.drop nm.length).dropWhile isJsWs
    let l3 ← dropLit [':'] l2
    let l4 := l3.dropWhile isJsWs
    let (ty, l5) ← typeAlternative l4
    let rest := defaultGroup l5
    let full := l.take (l.length - rest.length)
    some (strFromChars nm, strFromChars ty, containsChar '=' full, rest)

/-- All successive matches of the parameter pattern (`exec` with the
`g` flag). -/
def scanParams : Nat → List Char → List (String × String × Bool)
  | 0, _ => []
  | _ + 1, [] => []
  | fuel + 1, c :: t =>
    match tryParamAt (c :: t) with
    | some (nm, ty, hd, rest) => (nm, ty, hd) :: scanParams fuel rest
    | none => scanParams fuel t

/-- The type classification of `parseParams` (`cli.ts` lines 190-201):
exact primitive keywords, then the list-shape suffix, then everything
else is an object. -/
def classifyType (rawType : String) : ParamType :=
  if rawType = "string" then .string
  else if rawType = "number" then .number
  else if rawType = "boolean" then .boolean
  else if endsWithChars rawType.data ['[', ']'] then .array
  else .object

/-- `parseParams` (`cli.ts` lines 159-215): a rest parameter
short-circuits everything else; otherwise each matched parameter gets
`required = !hasDefault`, the classified type, and a flag whose long
form is always derived from the name, with short/alias hints from the
doc comment. -/
def parseParams (paramsStr : Option String) (jsdoc : String) : List ParamMeta :=
  match paramsStr with
  | none => []
  | some s =>
    let hints := extractFlagHints jsdoc
    match findRest (s.data.length + 1) s.data with
    | some (nm, rawType) =>
      [⟨nm, if endsWithChars rawType.data ['[', ']'] then .array else .string,
        false, true, none⟩]
    | none =>
      (scanParams (s.data.length + 1) s.data).map (fun m =>
        ⟨m.1, classifyType m.2.1, !m.2.2, false,
          some ⟨"--" ++ m.1, (alistGet hints m.1).bind FlagHint.short,
            (alistGet hints m.1).bind FlagHint.aliases⟩⟩)

/-! ## Method extraction (`cli.ts` lines 83-122) -/

/-- The doc-line cleanup regex replace `^\s*\*?\s*`: leading
whitespace, one optional star, more whitespace. -/
def stripDocLineLead (l : List Char) : List Char :=
  let l1 := l.dropWhile isJsWs
  match l1 with
  | '*' :: r => r.dropWhile isJsWs
  | _ => l1

/-- JS `split("\n")`. -/
def splitOnNl : List Char → List (List Char)
  | [] => [[]]
  | '\n' :: t => [] :: splitOnNl t
  | c :: t =>
    match splitOnNl t with
    | [] => [[c]]
    | x :: xs => (c :: x) :: xs

/-- The description extraction (`cli.ts` lines 111-115): first cleaned
nonempty doc-comment line that is not a directive, else the empty
string. -/
def firstDocLine (jsdoc : String) : String :=
  let lines := (splitOnNl jsdoc.data).map (fun ln => trimJsWs (stripDocLineLead ln))
  let good := lines.filter (fun ln => decide (ln ≠ []) && !startsWithChars ln ['@'])
  match good with
  | [] => ""
  | ln :: _ => strFromChars ln

/-- The method loop of `extractMethodsFromClass` (`cli.ts` lines
99-119) over an already-extracted class body: every regex match whose
name is not privacy-marked and not `constructor` is registered. -/
def scanMethods (body : List Char) : List (String × TaskMeta) :=
  (scanMatches (body.length + 1) body).foldl
    (fun methods m =>
      if startsWithChars m.2.1.data ['_'] || m.2.1 = "constructor" then methods
      else alistSet methods m.2.1 ⟨firstDocLine m.1, parseParams m.2.2 m.1⟩)
    []

/-- The lazy class-body capture `([\s\S]*?)\n\}`: text up to the first
newline-brace pair. -/
def splitAtNlBrace : List Char → Option (List Char × List Char)
  | [] => none
  | '\n' :: '}' :: rest => some ([], rest)
  | c :: rest => (splitAtNlBrace rest).map (fun p => (c :: p.1, p.2))

/-- One attempt of the class pattern
`class\s+<name>\s*(?:extends\s+\w+)?\s*\{([\s\S]*?)\n\}` anchored at
the current position, returning the captured body. -/
def tryClassAt (className : String) (l : List Char) : Option (List Char) := do
  let l1 ← dropLit "class".data l
  let l2 ← wsPlus l1
  let l3 ← dropLit className.data l2
  let l4 := l3.dropWhile isJsWs
  let l5 :=
    match dropLit "extends".data l4 with
    | some r =>
      (match wsPlus r with
       | some r2 =>
         let w := r2.takeWhile isJsWordChar
         (match w with
          | [] => l4
          | _ :: _ => r2.drop w.length)
       | none => l4)
    | none => l4
  let l6 := l5.dropWhile isJsWs
  let l7 ← dropLit ['{'] l6
  let (body, _) ← splitAtNlBrace l7
  some body

/-- First match of the class pattern anywhere in the source. -/
def findClass (className : String) : Nat → List Char → Option (List Char)
  | 0, _ => none
  | _ + 1, [] => none
  | fuel + 1, c :: t =>
    match tryClassAt className (c :: t) with
    | some body => some body
    | none => findClass className fuel t

/-- `extractMethodsFromClass` (`cli.ts` lines 83-122): locate the named
class body, else return the empty mapping, then scan it for documented
async methods. -/
def extractMethodsFromClass (source className : String) :
    List (String × TaskMeta) :=
  match findClass className (source.data.length + 1) source.data with
  | none => []
  | some body => scanMethods body

/-- Spec-side first separator index used to relate `parseCommand` to
left-to-right scanning. -/
def firstSepIdx : List Char → Option Nat
  | [] => none
  | c :: cs =>
    if c = ':' ∨ c = '.' then some 0
    else (firstSepIdx cs).map (· + 1)

/-! ## Helper lemmas -/

theorem strFromChars_data (l : List Char) : (strFromChars l).data = l := rfl

theorem startsWith_append_false (p : List Char) :
    ∀ (l q : List Char), startsWithChars l p = false →
      startsWithChars l (p ++ q) = false := by
  induction p with
  | nil => intro l q h; simp [startsWithChars] at h
  | cons a p ih =>
    intro l q h
    cases l with
    | nil => rfl
    | cons c cs =>
      simp only [startsWithChars, Bool.and_eq_false_iff] at h
      rcases h with h | h
      · simp [startsWithChars, h]
      · have h2 := ih cs q h
        simp [startsWithChars, h2]

/-! ## C1 -/

/-- C1: for descriptors `[name : string required, count : number
required]` and argv `["--count=2", "World"]`, the resolver returns
exactly `["World", 2]` — the positional token binds to the first
descriptor and the flag value is coerced to the number 2. -/
theorem c1_scenario_a :
    resolveArgs
      [⟨"name", .string, true, false, some ⟨"--name", none, none⟩⟩,
       ⟨"count", .number, true, false, some ⟨"--count", none, none⟩⟩]
      (parseCliArgs ["--count=2", "World"]) =
    .ok [.str "World", .num (.fin 2)] := rfl

/-! ## C4 -/

/-- C4: a descriptor that finds no raw value (no long flag, short
flag, alias, or unconsumed positional) makes the resolver fail with
MissingArgument when required, and stop — returning only the values
accumulated so far, resolving no later descriptor — when optional; in
particular for `[a required, b optional, c required]` with argv
providing `a` positionally and `c` by flag, the result is just `a`'s
value and no MissingArgument is raised for `c`. -/
theorem c4_missing_value_policy :
    (∀ (param : ParamMeta) (rest : List ParamMeta) (parsed : ParsedArgs)
       (used : List Nat) (result : List JSValue),
      param.isRest = false →
      flagLookup param parsed.flags = none →
      firstUnused parsed.positional used 0 = none →
      resolveAux (param :: rest) parsed used result =
        if param.required then .error (.missingArgument param.name param.type)
        else .ok result) ∧
    resolveArgs
      [⟨"a", .string, true, false, some ⟨"--a", none, none⟩⟩,
       ⟨"b", .string, false, false, some ⟨"--b", none, none⟩⟩,
       ⟨"c", .string, true, false, some ⟨"--c", none, none⟩⟩]
      ⟨["A"], [("c", .str "X")]⟩ = .ok [.str "A"] := by
  refine ⟨?_, rfl⟩
  intro param rest parsed used result hRest hFlag hPos
  simp [resolveAux, hRest, hFlag, hPos]

/-- Witness for C4: the optional descriptor `b` with no flag and no
positional left stops resolution, ignoring the later required
descriptor. -/
theorem c4_witness :
    resolveAux
      [⟨"b", .string, false, false, some ⟨"--b", none, none⟩⟩,
       ⟨"c", .string, true, false, some ⟨"--c", none, none⟩⟩]
      ⟨["A"], [("c", .str "X")]⟩ [0] [.str "A"] = .ok [.str "A"] := by
  have h := c4_missing_value_policy.1
    ⟨"b", .string, false, false, some ⟨"--b", none, none⟩⟩
    [⟨"c", .string, true, false, some ⟨"--c", none, none⟩⟩]
    ⟨["A"], [("c", .str "X")]⟩ [0] [.str "A"] rfl rfl rfl
  simpa using h

/-! ## C5 -/

/-- C5 counterexample: the claim requires a whitespace-only raw string
to fail number coercion, but the code coerces it to the number 0 (JS
`Number(" ")` is `0`; only the empty string is special-cased). -/
theorem c5_counterexample :
    coerceArg " " .number = .ok (.num (.fin 0)) ∧
    coerceArg " " .number ≠ .error .typeMismatch ∧
    coerceArg " " .number ≠ .error .invalidPayload :=
  ⟨rfl, fun h => Except.noConfusion h, fun h => Except.noConfusion h⟩

/-- C5 amended: number coercion fails (with TypeMismatch) exactly when
the raw string is empty or `Number` evaluates it to `NaN`; every other
string — including whitespace-only strings, which trim to the number
0 — coerces to its `Number` value. -/
theorem c5_number_coercion :
    (∀ v : String, v ≠ "" → ∀ n, jsNumber v = some n →
      coerceArg v .number = .ok (.num n)) ∧
    (∀ v : String,
      coerceArg v .number = .error .typeMismatch ↔ (v = "" ∨ jsNumber v = none)) ∧
    coerceArg " " .number = .ok (.num (.fin 0)) := by
  refine ⟨?_, ?_, rfl⟩
  · intro v hv n hn
    simp [coerceArg, hv, hn]
  · intro v
    by_cases hv : v = ""
    · subst hv; simp [coerceArg]
    · cases hn : jsNumber v with
      | none => simp [coerceArg, hv, hn]
      | some n => simp [coerceArg, hv, hn]

/-- Witness for C5: the numeric literal "2" coerces to the number 2. -/
theorem c5_witness :
    coerceArg "2" .number = .ok (.num (.fin 2)) :=
  c5_number_coercion.1 "2" (by decide) (.fin 2) rfl

/-! ## C6 -/

/-- C6: object coercion parses the raw string as JSON; a parse failure
is InvalidPayload, a parsed value that is not an object (an array, a
primitive, or null) is TypeMismatch; the token `{"query":"x"}`
resolves to the object `{query : "x"}` and `[1,2]` on an object-typed
descriptor is TypeMismatch. -/
theorem c6_object_coercion :
    (∀ v : String, jsonParse v = none →
      coerceArg v .object = .error .invalidPayload) ∧
    (∀ (v : String) (j : JSValue), jsonParse v = some j →
      (∀ fields, j ≠ .obj fields) →
      coerceArg v .object = .error .typeMismatch) ∧
    coerceArg "\x7b\"query\":\"x\"\x7d" .object = .ok (.obj [("query", .str "x")]) ∧
    coerceArg "[1,2]" .object = .error .typeMismatch := by
  refine ⟨?_, ?_, rfl, rfl⟩
  · intro v hv; simp [coerceArg, hv]
  · intro v j hj hne
    cases j with
    | obj fields => exact absurd rfl (hne fields)
    | str s => simp [coerceArg, hj]
    | num n => simp [coerceArg, hj]
    | bool b => simp [coerceArg, hj]
    | null => simp [coerceArg, hj]
    | arr elems => simp [coerceArg, hj]

/-- Witness for C6: malformed JSON text yields InvalidPayload. -/
theorem c6_witness :
    coerceArg "\x7b" .object = .error .invalidPayload :=
  c6_object_coercion.1 "\x7b" rfl

/-! ## C10 -/

/-- C10: for a bare double-dash flag token and for a single-dash token
of exactly length 2, the following token is consumed as the flag value
exactly when it exists and does not start with a dash; a dash-prefixed
or missing next token leaves the flag boolean `true` and consumes
nothing. -/
theorem c10_next_token_consumption :
    (∀ (fuel : Nat) (t nextArg : String) (rest pos : List String)
       (flags : List (String × RawVal)),
      startsWithChars t.data ['-', '-'] = true →
      t ≠ "--" →
      containsChar '=' t.data = false →
      startsWithChars t.data ['-', '-', 'n', 'o', '-'] = false →
      parseCliArgsAux (fuel + 1) (t :: nextArg :: rest) false pos flags =
        if startsWithChars nextArg.data ['-'] then
          parseCliArgsAux fuel (nextArg :: rest) false pos
            (alistSet flags (strFromChars (t.data.drop 2)) (.bool true))
        else
          parseCliArgsAux fuel rest false pos
            (alistSet flags (strFromChars (t.data.drop 2)) (.str nextArg))) ∧
    (∀ (fuel : Nat) (t : String) (pos : List String)
       (flags : List (String × RawVal)),
      startsWithChars t.data ['-', '-'] = true →
      t ≠ "--" →
      containsChar '=' t.data = false →
      startsWithChars t.data ['-', '-', 'n', 'o', '-'] = false →
      parseCliArgsAux (fuel + 1) [t] false pos flags =
        parseCliArgsAux fuel [] false pos
          (alistSet flags (strFromChars (t.data.drop 2)) (.bool true))) ∧
    (∀ (fuel : Nat) (t nextArg : String) (rest pos : List String)
       (flags : List (String × RawVal)),
      startsWithChars t.data ['-'] = true →
      startsWithChars t.data ['-', '-'] = false →
      t.data.length = 2 →
      parseCliArgsAux (fuel + 1) (t :: nextArg :: rest) false pos flags =
        if startsWithChars nextArg.data ['-'] then
          parseCliArgsAux fuel (nextArg :: rest) false pos
            (alistSet flags (strFromChars (t.data.drop 1)) (.bool true))
        else
          parseCliArgsAux fuel rest false pos
            (alistSet flags (strFromChars (t.data.drop 1)) (.str nextArg))) ∧
    (∀ (fuel : Nat) (t : String) (pos : List String)
       (flags : List (String × RawVal)),
      startsWithChars t.data ['-'] = true →
      startsWithChars t.data ['-', '-'] = false →
      t.data.length = 2 →
      parseCliArgsAux (fuel + 1) [t] false pos flags =
        parseCliArgsAux fuel [] false pos
          (alistSet flags (strFromChars (t.data.drop 1)) (.bool true))) := by
  refine ⟨?_, ?_, ?_, ?_⟩
  · intro fuel t nextArg rest pos flags h1 h2 h3 h4
    cases hsw : startsWithChars nextArg.data ['-'] <;>
      simp [parseCliArgsAux, h1, h2, h3, h4, hsw]
  · intro fuel t pos flags h1 h2 h3 h4
    simp [parseCliArgsAux, h1, h2, h3, h4]
  · intro fuel t nextArg rest pos flags h1 h2 h3
    have hne : t ≠ "--" := by
      intro e; rw [e] at h2; exact absurd h2 (by decide)
    have h4 : startsWithChars t.data ['-', '-', 'n', 'o', '-'] = false :=
      startsWith_append_false ['-', '-'] t.data ['n', 'o', '-'] h2
    cases hsw : startsWithChars nextArg.data ['-'] <;>
      simp [parseCliArgsAux, h1, h2, h3, h4, hne, hsw]
  · intro fuel t pos flags h1 h2 h3
    have hne : t ≠ "--" := by
      intro e; rw [e] at h2; exact absurd h2 (by decide)
    have h4 : startsWithChars t.data ['-', '-', 'n', 'o', '-'] = false :=
      startsWith_append_false ['-', '-'] t.data ['n', 'o', '-'] h2
    simp [parseCliArgsAux, h1, h2, h3, h4, hne]

/-- Witness for C10: after the bare flag `--flag`, the dash-prefixed
next token `-5` is not consumed as a value and the flag becomes
boolean `true`. -/
theorem c10_witness :
    parseCliArgsAux 1 ["--flag", "-5"] false [] [] =
      parseCliArgsAux 0 ["-5"] false []
        (alistSet [] (strFromChars ("--flag".data.drop 2)) (.bool true)) := by
  have h := c10_next_token_consumption.1 0 "--flag" "-5" [] [] []
    rfl (by decide) rfl rfl
  simpa using h

/-! ## C2 -/

theorem startsWith_dash_of_dashes {t : String}
    (h : startsWithChars t.data ['-', '-'] = false) : t ≠ "--" := by
  intro e; rw [e] at h; exact absurd h (by decide)

theorem parseAux_no_dash :
    ∀ (args : List String) (fuel : Nat) (pos : List String)
      (flags : List (String × RawVal)),
      args.length ≤ fuel →
      (∀ t ∈ args, startsWithChars t.data ['-'] = false) →
      parseCliArgsAux fuel args false pos flags = ⟨pos ++ args, flags⟩ := by
  intro args
  induction args with
  | nil =>
    intro fuel pos flags _ _
    cases fuel <;> simp [parseCliArgsAux]
  | cons a t ih =>
    intro fuel pos flags hfuel hall
    cases fuel with
    | zero => simp at hfuel
    | succ f =>
      have ha : startsWithChars a.data ['-'] = false := hall a (by simp)
      have h2 : startsWithChars a.data ['-', '-'] = false :=
        startsWith_append_false ['-'] a.data ['-'] ha
      have h3 : startsWithChars a.data ['-', '-', 'n', 'o', '-'] = false :=
        startsWith_append_false ['-'] a.data ['-', 'n', 'o', '-'] ha
      have hne : a ≠ "--" := by
        intro e; rw [e] at ha; exact absurd ha (by decide)
      have ht : ∀ x ∈ t, startsWithChars x.data ['-'] = false :=
        fun x hx => hall x (List.mem_cons_of_mem _ hx)
      have hrec := ih f (pos ++ [a]) flags
        (by simp only [List.length_cons] at hfuel; omega) ht
      simp [parseCliArgsAux, ha, h2, h3, hne, hrec]

/-- C2 counterexample: a task with empty parameter descriptors invoked
with the flag-shaped token `--foo` receives the empty argument list —
the token is bound into the flag map by the tokenizer and dropped, not
passed through verbatim as the claim requires. -/
theorem c2_counterexample :
    computeTaskArgs [] ["--foo"] = .ok [] ∧
    (Except.ok ([] : List JSValue) : Except CliError (List JSValue)) ≠
      .ok [JSValue.str "--foo"] :=
  ⟨rfl, by simp⟩

/-- C2 amended: a task with empty parameter descriptors, invoked with
at least one non-help token, receives exactly the positional tokens of
the tokenized (help-filtered) argv as strings, with no coercion;
flag-shaped tokens are consumed into the flag map and are not passed.
In particular, when no token starts with a dash, all tokens pass
through verbatim. -/
theorem c2_empty_params_positional :
    (∀ taskArgs : List String,
      taskArgs.filter (fun a => decide (a ≠ "-h") && decide (a ≠ "--help")) ≠ [] →
      computeTaskArgs [] taskArgs =
        .ok ((parseCliArgs (taskArgs.filter
          (fun a => decide (a ≠ "-h") && decide (a ≠ "--help")))).positional.map
            JSValue.str)) ∧
    (∀ taskArgs : List String, taskArgs ≠ [] →
      (∀ t ∈ taskArgs, startsWithChars t.data ['-'] = false) →
      computeTaskArgs [] taskArgs = .ok (taskArgs.map JSValue.str)) := by
  constructor
  · intro taskArgs h
    have hl : 0 < (taskArgs.filter
        (fun a => decide (a ≠ "-h") && decide (a ≠ "--help"))).length :=
      List.length_pos.mpr h
    simp only [computeTaskArgs]
    split
    · rfl
    · rename_i hcond
      exfalso
      simp only [List.length_nil, decide_eq_true_eq, Bool.and_eq_true,
        gt_iff_lt] at hcond
      exact hcond ⟨trivial, hl⟩
  · intro taskArgs hne hall
    have hfilter : taskArgs.filter
        (fun a => decide (a ≠ "-h") && decide (a ≠ "--help")) = taskArgs := by
      apply List.filter_eq_self.mpr
      intro a ha
      have hd := hall a ha
      have hha : a ≠ "-h" := by
        intro e; rw [e] at hd; exact absurd hd (by decide)
      have hhb : a ≠ "--help" := by
        intro e; rw [e] at hd; exact absurd hd (by decide)
      simp [hha, hhb]
    have hparse : parseCliArgs taskArgs = ⟨taskArgs, []⟩ := by
      unfold parseCliArgs
      rw [parseAux_no_dash taskArgs (taskArgs.length + 1) [] [] (by omega) hall]
      simp
    have hlen : 0 < taskArgs.length := List.length_pos.mpr hne
    simp only [computeTaskArgs]
    rw [hfilter, hparse]
    split
    · rfl
    · rename_i hcond
      exfalso
      simp only [List.length_nil, decide_eq_true_eq, Bool.and_eq_true,
        gt_iff_lt] at hcond
      exact hcond ⟨trivial, hlen⟩

/-- Witness for C2 (amended): two plain tokens pass through verbatim
to a task that has no parameter metadata. -/
theorem c2_witness :
    computeTaskArgs [] ["world", "2"] =
      .ok [JSValue.str "world", JSValue.str "2"] :=
  c2_empty_params_positional.2 ["world", "2"] (by decide) (by decide)

/-! ## C3 -/

theorem listTakeAppend (p r : List Char) : (p ++ r).take p.length = p := by
  induction p with
  | nil => rfl
  | cons c cs ih => simp [ih]

theorem listDropAppendSucc (p : List Char) (c : Char) (r : List Char) :
    (p ++ c :: r).drop (p.length + 1) = r := by
  induction p with
  | nil => rfl
  | cons a as ih => exact ih

theorem charIndexOf_first (x : Char) (p q : List Char)
    (hp : containsChar x p = false) :
    charIndexOf x (p ++ x :: q) = some p.length := by
  induction p with
  | nil => simp [charIndexOf]
  | cons c cs ih =>
    simp only [containsChar, List.any_cons, Bool.or_eq_false_iff,
      decide_eq_false_iff_not] at hp
    have := ih (by simp [containsChar, hp.2])
    simp [charIndexOf, hp.1, this]

/-- C3 counterexample: the tokenizer keys the short-flag token
`-xy=v` under `"xy"` — the whole text before the `=` — not under the
single character `"x"` the claim requires. -/
theorem c3_counterexample :
    alistGet (parseCliArgs ["-xy=v"]).flags "x" = none ∧
    alistGet (parseCliArgs ["-xy=v"]).flags "xy" = some (.str "v") :=
  ⟨rfl, rfl⟩

/-- C3 amended: for a single-dash token of length greater than 2
containing `=`, written `-<key>=<value>` with a nonempty `=`-free key
that does not itself start with a dash, the recorded flag key is the
entire (possibly multi-character) text between the dash and the first
`=`, and the value is the text after it. -/
theorem c3_short_equals_key :
    ∀ (fuel : Nat) (key val : List Char) (rest pos : List String)
      (flags : List (String × RawVal)),
      key ≠ [] →
      startsWithChars key ['-'] = false →
      containsChar '=' key = false →
      parseCliArgsAux (fuel + 1)
          (strFromChars ('-' :: key ++ '=' :: val) :: rest) false pos flags =
        parseCliArgsAux fuel rest false pos
          (alistSet flags (strFromChars key) (.str (strFromChars val))) := by
  intro fuel key val rest pos flags hkey hkdash hkeq
  obtain ⟨k, ks, rfl⟩ : ∃ k ks, key = k :: ks := by
    cases key with
    | nil => exact absurd rfl hkey
    | cons k ks => exact ⟨k, ks, rfl⟩
  simp only [List.cons_append]
  have hkne : k ≠ '-' := by
    intro e; rw [e] at hkdash; simp [startsWithChars] at hkdash
  have hdd : startsWithChars ('-' :: k :: (ks ++ '=' :: val)) ['-', '-'] = false := by
    simp [startsWithChars, hkne]
  have hno : startsWithChars ('-' :: k :: (ks ++ '=' :: val))
      ['-', '-', 'n', 'o', '-'] = false :=
    startsWith_append_false ['-', '-'] _ ['n', 'o', '-'] hdd
  have hne2 : strFromChars ('-' :: k :: (ks ++ '=' :: val)) ≠ "--" := by
    intro e
    have hdata : ('-' :: k :: (ks ++ '=' :: val)) = "--".data :=
      congrArg String.data e
    have hlen := congrArg List.length hdata
    simp [List.length_append] at hlen
  have hc : containsChar '=' ('-' :: k :: ks) = false := by
    simp only [containsChar, List.any_cons, Bool.or_eq_false_iff,
      decide_eq_false_iff_not]
    refine ⟨by decide, ?_⟩
    simpa [containsChar, List.any_cons, Bool.or_eq_false_iff] using hkeq
  have hidx : charIndexOf '=' ('-' :: k :: (ks ++ '=' :: val)) =
      some ((k :: ks).length + 1) := by
    simpa using charIndexOf_first '=' ('-' :: k :: ks) val hc
  have hn3 : ¬((startsWithChars ('-' :: k :: (ks ++ '=' :: val)) ['-', '-'] &&
      containsChar '=' ('-' :: k :: (ks ++ '=' :: val))) = true) := by
    simp [hdd]
  have hn4 : ¬(startsWithChars ('-' :: k :: (ks ++ '=' :: val))
      ['-', '-', 'n', 'o', '-'] = true) := by
    simp [hno]
  have hn5 : ¬(startsWithChars ('-' :: k :: (ks ++ '=' :: val)) ['-', '-'] = true) := by
    simp [hdd]
  have hcond6 : (startsWithChars ('-' :: k :: (ks ++ '=' :: val)) ['-'] &&
      decide (('-' :: k :: (ks ++ '=' :: val)).length > 2) &&
      containsChar '=' ('-' :: k :: (ks ++ '=' :: val))) = true := by
    have hs : startsWithChars ('-' :: k :: (ks ++ '=' :: val)) ['-'] = true := by
      simp [startsWithChars]
    have hl : decide (('-' :: k :: (ks ++ '=' :: val)).length > 2) = true := by
      simp only [decide_eq_true_eq, List.length_cons, List.length_append,
        gt_iff_lt]
      omega
    have hcc : containsChar '=' ('-' :: k :: (ks ++ '=' :: val)) = true := by
      simp [containsChar]
    rw [hs, hl, hcc]
    rfl
  have h1 : ('-' :: k :: (ks ++ '=' :: val)).take ((k :: ks).length + 1) =
      '-' :: k :: ks := by
    exact listTakeAppend ('-' :: k :: ks) ('=' :: val)
  have htake : sliceChars ('-' :: k :: (ks ++ '=' :: val)) 1
      ((k :: ks).length + 1) = k :: ks := by
    show (('-' :: k :: (ks ++ '=' :: val)).take ((k :: ks).length + 1)).drop 1 =
      k :: ks
    rw [h1]
    rfl
  have hdrop : ('-' :: k :: (ks ++ '=' :: val)).drop ((k :: ks).length + 1 + 1) =
      val :=
    listDropAppendSucc ('-' :: k :: ks) '=' val
  simp only [parseCliArgsAux, strFromChars_data]
  rw [if_neg hne2]
  rw [if_neg hn3]
  rw [if_neg hn4]
  rw [if_neg hn5]
  rw [if_pos hcond6]
  rw [hidx, Option.getD_some, htake, hdrop]
  simp

/-- Witness for C3 (amended): the token `-xy=v` records the flag
`"xy"` with value `"v"`. -/
theorem c3_witness :
    parseCliArgsAux 1 ["-xy=v"] false [] [] =
      parseCliArgsAux 0 [] false [] (alistSet [] "xy" (.str "v")) :=
  c3_short_equals_key 0 ['x', 'y'] ['v'] [] [] [] (by decide) (by decide)
    (by decide)

/-! ## C9 -/

theorem charIndexOf_eq_none (x : Char) (l : List Char)
    (h : containsChar x l = false) : charIndexOf x l = none := by
  induction l with
  | nil => rfl
  | cons c cs ih =>
    simp only [containsChar, List.any_cons, Bool.or_eq_false_iff,
      decide_eq_false_iff_not] at h
    simp [charIndexOf, h.1, ih (by simp [containsChar, h.2])]

theorem sepIdx_eq_firstSepIdx (l : List Char) :
    (match charIndexOf ':' l, charIndexOf '.' l with
     | some ci, some di => some (min ci di)
     | some ci, none => some ci
     | none, some di => some di
     | none, none => none) = firstSepIdx l := by
  induction l with
  | nil => rfl
  | cons c cs ih =>
    by_cases hc : c = ':'
    · subst hc
      have hcd : (':' : Char) ≠ '.' := by decide
      cases hy : charIndexOf '.' cs <;>
        simp [charIndexOf, firstSepIdx, hcd, hy, Nat.zero_min]
    · by_cases hd : c = '.'
      · subst hd
        have hdc : ('.' : Char) ≠ ':' := by decide
        cases hx : charIndexOf ':' cs <;>
          simp [charIndexOf, firstSepIdx, hdc, hx, Nat.min_zero]
      · cases hx : charIndexOf ':' cs <;> cases hy : charIndexOf '.' cs <;>
          simp [charIndexOf, firstSepIdx, hc, hd, hx, hy, ← ih,
            Nat.succ_min_succ]

theorem firstSepSplit_eq (l : List Char) :
    firstSepSplit l = (firstSepIdx l).map (fun i => (l.take i, l.drop (i + 1))) := by
  induction l with
  | nil => rfl
  | cons c cs ih =>
    by_cases h : c = ':' ∨ c = '.'
    · simp [firstSepSplit, firstSepIdx, h]
    · cases hx : firstSepIdx cs <;>
        simp [firstSepSplit, firstSepIdx, h, ih, hx]

/-- C9: a command token is split into namespace and method at the
earliest occurrence of either `:` or `.` — `parseCommand` agrees with
the left-to-right first-separator splitter everywhere, and a command
containing neither separator is a root task name with no namespace. -/
theorem c9_command_split :
    (∀ command : String, parseCommand command = specSplitCommand command) ∧
    (∀ command : String,
      containsChar ':' command.data = false →
      containsChar '.' command.data = false →
      parseCommand command = ⟨none, command⟩) := by
  constructor
  · intro command
    unfold parseCommand specSplitCommand
    dsimp only
    rw [sepIdx_eq_firstSepIdx, firstSepSplit_eq]
    cases hx : firstSepIdx command.data <;> simp [hx]
  · intro command h1 h2
    unfold parseCommand
    dsimp only
    rw [charIndexOf_eq_none ':' command.data h1,
      charIndexOf_eq_none '.' command.data h2]

/-- Witness for C9: a separator-free command is a root task name. -/
theorem c9_witness : parseCommand "build" = ⟨none, "build"⟩ :=
  c9_command_split.2 "build" rfl rfl

/-! ## C7 and C8: doc comments and the `async` keyword gate discovery -/

theorem dropLit_eq_none (pat : List Char) :
    ∀ l : List Char, startsWithChars l pat = false → dropLit pat l = none := by
  induction pat with
  | nil => intro l h; simp [startsWithChars] at h
  | cons p ps ih =>
    intro l h
    cases l with
    | nil => rfl
    | cons c cs =>
      simp only [startsWithChars, Bool.and_eq_false_iff,
        decide_eq_false_iff_not] at h
      rcases h with h | h
      · simp [dropLit, h]
      · by_cases hc : c = p
        · simp [dropLit, hc, ih cs h]
        · simp [dropLit, hc]

theorem dropLit_eq_some (pat : List Char) :
    ∀ l r : List Char, dropLit pat l = some r → l = pat ++ r := by
  induction pat with
  | nil =>
    intro l r h
    simp [dropLit] at h
    simp [h]
  | cons p ps ih =>
    intro l r h
    cases l with
    | nil => simp [dropLit] at h
    | cons c cs =>
      by_cases hc : c = p
      · subst hc
        simp only [dropLit, if_pos rfl] at h
        simp [ih cs r h]
      · simp [dropLit, hc] at h

theorem splitAtCloseComment_eq_some :
    ∀ (l a b : List Char), splitAtCloseComment l = some (a, b) →
      l = a ++ '*' :: '/' :: b := by
  intro l
  induction l with
  | nil => intro a b h; simp [splitAtCloseComment] at h
  | cons c cs ih =>
    intro a b h
    by_cases hcond : (decide (c = '*') && startsWithChars cs ['/']) = true
    · rw [splitAtCloseComment, if_pos hcond] at h
      simp only [Bool.and_eq_true, decide_eq_true_eq] at hcond
      obtain ⟨hc, hs⟩ := hcond
      cases cs with
      | nil => simp [startsWithChars] at hs
      | cons d ds =>
        simp only [startsWithChars, Bool.and_eq_true, decide_eq_true_eq] at hs
        obtain ⟨hd, -⟩ := hs
        simp only [Option.some.injEq, Prod.mk.injEq] at h
        obtain ⟨ha, hb⟩ := h
        subst hc; subst hd; subst ha
        simp [← hb]
    · rw [splitAtCloseComment, if_neg hcond] at h
      cases hsplit : splitAtCloseComment cs with
      | none => rw [hsplit] at h; simp at h
      | some p =>
        obtain ⟨a2, b2⟩ := p
        rw [hsplit] at h
        simp only [Option.map_some', Option.some.injEq, Prod.mk.injEq] at h
        obtain ⟨ha, hb⟩ := h
        have hcs := ih a2 b2 hsplit
        subst hb
        rw [← ha, hcs]
        simp

theorem hasSub_tail (pat : List Char) (c : Char) (t : List Char)
    (h : hasSubChars pat (c :: t) = false) : hasSubChars pat t = false := by
  simp only [hasSubChars, Bool.or_eq_false_iff] at h
  exact h.2

theorem hasSub_head (pat : List Char) (c : Char) (t : List Char)
    (h : hasSubChars pat (c :: t) = false) :
    startsWithChars (c :: t) pat = false := by
  simp only [hasSubChars, Bool.or_eq_false_iff] at h
  exact h.1

theorem hasSub_of_append (pat : List Char) :
    ∀ (x t : List Char), hasSubChars pat (x ++ t) = false →
      hasSubChars pat t = false := by
  intro x
  induction x with
  | nil => intro t h; exact h
  | cons c cs ih => intro t h; exact ih t (hasSub_tail pat c (cs ++ t) h)

theorem hasSub_dropWhile (pat : List Char) (p : Char → Bool) :
    ∀ l : List Char, hasSubChars pat l = false →
      hasSubChars pat (l.dropWhile p) = false := by
  intro l
  induction l with
  | nil => intro h; exact h
  | cons c t ih =>
    intro h
    by_cases hp : p c
    · simpa [List.dropWhile, hp] using ih (hasSub_tail pat c t h)
    · simpa [List.dropWhile, hp] using h

theorem startsWith_true_hasSub (pat : List Char) :
    ∀ s : List Char, startsWithChars s pat = true →
      hasSubChars pat s = true := by
  intro s h
  cases s with
  | nil =>
    cases pat with
    | nil => rfl
    | cons p ps => simp [startsWithChars] at h
  | cons c t => simp [hasSubChars, h]

theorem startsWith_false_of_hasSub (pat s : List Char)
    (h : hasSubChars pat s = false) : startsWithChars s pat = false := by
  cases hx : startsWithChars s pat with
  | false => rfl
  | true => rw [startsWith_true_hasSub pat s hx] at h; exact absurd h (by decide)

/-- Any successful method match requires the text to start with the
doc-comment opener. -/
theorem tryMatchMethod_none_of_no_doc (l : List Char)
    (h : startsWithChars l "/**".data = false) : tryMatchMethod l = none := by
  unfold tryMatchMethod
  rw [dropLit_eq_none "/**".data l h]
  rfl

/-- Any successful method match requires an `async` keyword after the
doc comment; with no `async` occurrence anywhere, matching fails. -/
theorem tryMatchMethod_none_of_no_async (l : List Char)
    (h : hasSubChars "async".data l = false) : tryMatchMethod l = none := by
  unfold tryMatchMethod
  cases h1 : dropLit "/**".data l with
  | none => rfl
  | some l1 =>
    cases h2 : splitAtCloseComment l1 with
    | none => simp [h2]
    | some pr =>
      obtain ⟨raw, l2⟩ := pr
      have hl : l = "/**".data ++ l1 := dropLit_eq_some "/**".data l l1 h1
      have hl1 : l1 = raw ++ '*' :: '/' :: l2 :=
        splitAtCloseComment_eq_some l1 raw l2 h2
      have hsub2 : hasSubChars "async".data l2 = false := by
        have e : l = ("/**".data ++ (raw ++ ['*', '/'])) ++ l2 := by
          rw [hl, hl1]; simp
        rw [e] at h
        exact hasSub_of_append "async".data _ l2 h
      have hsub3 : hasSubChars "async".data (l2.dropWhile isJsWs) = false :=
        hasSub_dropWhile "async".data isJsWs l2 hsub2
      have hsw : startsWithChars (l2.dropWhile isJsWs) "async".data = false :=
        startsWith_false_of_hasSub "async".data _ hsub3
      simp only [Option.bind_eq_bind, Option.some_bind, h2]
      rw [dropLit_eq_none "async".data _ hsw]
      simp

theorem scanMatches_nil_of_no_doc :
    ∀ (fuel : Nat) (l : List Char), hasSubChars "/**".data l = false →
      scanMatches fuel l = [] := by
  intro fuel
  induction fuel with
  | zero => intro l _; rfl
  | succ f ih =>
    intro l h
    cases l with
    | nil => rfl
    | cons c t =>
      rw [scanMatches,
        tryMatchMethod_none_of_no_doc (c :: t) (hasSub_head _ c t h)]
      exact ih t (hasSub_tail _ c t h)

theorem scanMatches_nil_of_no_async :
    ∀ (fuel : Nat) (l : List Char), hasSubChars "async".data l = false →
      scanMatches fuel l = [] := by
  intro fuel
  induction fuel with
  | zero => intro l _; rfl
  | succ f ih =>
    intro l h
    cases l with
    | nil => rfl
    | cons c t =>
      rw [scanMatches, tryMatchMethod_none_of_no_async (c :: t) h]
      exact ih t (hasSub_tail _ c t h)

/-- C7: a doc comment immediately before the declaration is a hard
gate on discovery: a class body with no doc-comment opener yields no
descriptors at all, an otherwise-eligible async method without a doc
comment is invisible, and the same method with a doc comment is
discovered. -/
theorem c7_doc_comment_gate :
    (∀ body : List Char, hasSubChars "/**".data body = false →
      scanMethods body = []) ∧
    extractMethodsFromClass
      "export class Tasks \x7b\n  async hello(c: Context) \x7b\x7d\n\x7d"
      "Tasks" = [] ∧
    extractMethodsFromClass
      "export class Tasks \x7b\n  /** Say hi */\n  async hello(c: Context) \x7b\x7d\n\x7d"
      "Tasks" = [("hello", ⟨"Say hi", []⟩)] := by
  refine ⟨?_, rfl, rfl⟩
  intro body h
  unfold scanMethods
  rw [scanMatches_nil_of_no_doc (body.length + 1) body h]
  rfl

/-- Witness for C7: a body holding an eligible async method but no doc
comment produces no descriptors. -/
theorem c7_witness : scanMethods "async run(c: Context)".data = [] :=
  c7_doc_comment_gate.1 "async run(c: Context)".data rfl

/-- C8: only `async` method declarations are discovered: a class body
with no `async` keyword yields no descriptors, a documented synchronous
method with a context parameter is invisible, and the same method with
`async` is discovered. -/
theorem c8_async_gate :
    (∀ body : List Char, hasSubChars "async".data body = false →
      scanMethods body = []) ∧
    scanMethods "/** Say hi */\nhello(c: Context) \x7b\x7d".data = [] ∧
    scanMethods "/** Say hi */\nasync hello(c: Context) \x7b\x7d".data =
      [("hello", ⟨"Say hi", []⟩)] := by
  refine ⟨?_, rfl, rfl⟩
  intro body h
  unfold scanMethods
  rw [scanMatches_nil_of_no_async (body.length + 1) body h]
  rfl

/-- Witness for C8: a documented synchronous method is not
discovered. -/
theorem c8_witness : scanMethods "/** doc */ run(c: Context)".data = [] :=
  c8_async_gate.1 "/** doc */ run(c: Context)".data rfl
